import Mathlib

/-!
Verification development for the SemanticDocEngine vector store
(`src/modules/document/typing.py` and `src/modules/document/vectorstore.py`).

The Python code is shallowly embedded: Python lists become `List`,
dicts become insertion-ordered association lists, float arithmetic is
modelled over `ℚ`, and Python exceptions become `Except PyErr`.
Mutating methods take the store state and return it together with the
result, so that an exception raised mid-operation still reports the
(possibly partially mutated) state, exactly as a raised Python
exception leaves the mutated `self` behind.
-/

namespace SemanticDocEngine


/-- Python exceptions that the embedded code can raise. -/
inductive PyErr
  | indexError
  | keyError
  | valueError
  | vectorStoreError
deriving DecidableEq

/-- Lookup in an insertion-ordered association list (Python `dict.get` /
`d[k]` with the caller handling absence). -/
def dictLookup {κ ν : Type} [DecidableEq κ] (d : List (κ × ν)) (k : κ) : Option ν :=
  (d.find? (fun p => p.1 = k)).map Prod.snd

/-- Python `d[k] = v` on a dict: replaces the value in place when the key is
present (keeping its position), appends a new entry otherwise. -/
def dictInsert {κ ν : Type} [DecidableEq κ] (d : List (κ × ν)) (k : κ) (v : ν) :
    List (κ × ν) :=
  if (d.find? (fun p => p.1 = k)).isSome then
    d.map (fun p => if p.1 = k then (k, v) else p)
  else d ++ [(k, v)]

/-- Python `del d[k]` once the key is known to be present: removes the
(first, hence only) entry with that key. -/
def dictErase {κ ν : Type} [DecidableEq κ] (d : List (κ × ν)) (k : κ) : List (κ × ν) :=
  d.eraseP (fun p => p.1 = k)

/-- Order-preserving deduplication keeping first occurrences: the Python
idiom `for item in xs: if item not in acc: acc.append(item)`. -/
def dedupKeepFirst {α : Type} [DecidableEq α] (l : List α) : List α :=
  l.foldl (fun acc a => if a ∈ acc then acc else acc ++ [a]) []

/-- itertools.combinations: all size-`k` subsequences in positional order. -/
def combinationsOf {α : Type} : Nat → List α → List (List α)
  | 0, _ => [[]]
  | _ + 1, [] => []
  | k + 1, a :: as => ((combinationsOf k as).map (a :: ·)) ++ combinationsOf (k + 1) as

/-- Sequential filtering with a fallible predicate: the first raised
exception aborts the whole comprehension. -/
def filterExc {α : Type} (p : α → Except PyErr Bool) : List α → Except PyErr (List α)
  | [] => .ok []
  | a :: as => do
    let b ← p a
    let rest ← filterExc p as
    return if b then a :: rest else rest

/-! Tags (`typing.py`).  A `Tags` object is its `tags : List[str]` field. -/

/-- Tags.add_tag: the body is `self.tags.append(tag)` (an unconditional
append, despite the docstring promising to skip present tags). -/
def add_tag (tags : List String) (tag : String) : List String :=
  tags ++ [tag]

/-- Tags.remove_tag: `self.tags.remove(tag)` with `ValueError` swallowed —
removes the first occurrence if present, a no-op otherwise. -/
def remove_tag (tags : List String) (tag : String) : List String :=
  tags.erase tag

/-- Tags.has_tag. -/
def has_tag (tags : List String) (tag : String) : Bool :=
  tags.contains tag

/-- The subset-accumulation loop of `generate_powerset_with_permutations`:
`result = [[]]`, then for each element extend `result` with
`subset + [element]` for every subset already present. -/
def powersetLoop (tags : List String) : List (List String) :=
  tags.foldl (fun result element => result ++ result.map (fun s => s ++ [element])) [[]]

/-- Python string comparison: lexicographic on code points, which is
lexicographic on the underlying character list. -/
def pyStrLt (a b : String) : Prop :=
  List.Lex (· < ·) a.data b.data

instance : DecidableRel pyStrLt := fun a b =>
  List.Lex.decidableRel (· < ·) a.data b.data

/-- Key order used by `sorted(..., key=lambda x: (len(x), x))`: compare
lengths first, then lists of strings lexicographically (Python tuple
comparison on equal-length tuples of strings). -/
def tagKeyLe (x y : List String) : Prop :=
  x.length < y.length ∨ (x.length = y.length ∧ (x = y ∨ List.Lex pyStrLt x y))

instance : DecidableRel tagKeyLe := by
  intro x y
  unfold tagKeyLe
  have : DecidableRel (List.Lex pyStrLt) := List.Lex.decidableRel pyStrLt
  infer_instance

instance pyStrLt.isSTO : IsStrictTotalOrder String pyStrLt where
  trichotomous a b := by
    haveI : IsStrictTotalOrder (List Char) (List.Lex (· < ·)) := inferInstance
    rcases trichotomous (r := List.Lex (· < ·)) a.data b.data with h | h | h
    · exact Or.inl h
    · exact Or.inr (Or.inl (String.ext h))
    · exact Or.inr (Or.inr h)
  irrefl a h := irrefl a.data h
  trans a b c hab hbc := IsTrans.trans (r := List.Lex (· < ·)) _ _ _ hab hbc

instance : IsTrans (List String) tagKeyLe where
  trans x y z hxy hyz := by
    rcases hxy with h1 | ⟨e1, h1⟩
    · rcases hyz with h2 | ⟨e2, _⟩
      · exact Or.inl (h1.trans h2)
      · exact Or.inl (e2 ▸ h1)
    · rcases hyz with h2 | ⟨e2, h2⟩
      · exact Or.inl (e1 ▸ h2)
      · refine Or.inr ⟨e1.trans e2, ?_⟩
        rcases h1 with rfl | h1
        · exact h2
        · rcases h2 with rfl | h2
          · exact Or.inr h1
          · exact Or.inr (IsTrans.trans (r := List.Lex pyStrLt) _ _ _ h1 h2)

instance : IsTotal (List String) tagKeyLe where
  total x y := by
    rcases Nat.lt_trichotomy x.length y.length with h | h | h
    · exact Or.inl (Or.inl h)
    · rcases trichotomous (r := List.Lex pyStrLt) x y with hl | rfl | hl
      · exact Or.inl (Or.inr ⟨h, Or.inr hl⟩)
      · exact Or.inl (Or.inr ⟨h, Or.inl rfl⟩)
      · exact Or.inr (Or.inr ⟨h.symm, Or.inr hl⟩)
    · exact Or.inr (Or.inl h)

instance : IsAntisymm (List String) tagKeyLe where
  antisymm x y hxy hyx := by
    rcases hxy with h1 | ⟨e1, h1⟩
    · rcases hyx with h2 | ⟨e2, _⟩
      · exact absurd (h1.trans h2) (lt_irrefl _)
      · exact absurd h1 (by omega)
    · rcases hyx with h2 | ⟨e2, h2⟩
      · exact absurd h2 (by omega)
      · rcases h1 with rfl | h1
        · rfl
        · rcases h2 with rfl | h2
          · rfl
          · exact absurd h2 (asymm h1)

/-- Tags.generate_powerset_with_permutations: powerset of the tag list,
all permutations of each subset, deduplicated (a Python `set`), sorted by
`(length, lexicographic)`.  Permutation enumeration order and set
iteration order do not affect the result: the sort key is injective, so
the sorted list of the distinct permutations is unique; we therefore use
`List.permutations'` and an insertion sort. -/
def generate_powerset_with_permutations (tags : List String) : List (List String) :=
  List.insertionSort tagKeyLe
    (((powersetLoop tags).flatMap List.permutations').dedup)

/-- One evaluation of `perm[0] == elements[0] or perm[0] == elements[1]`,
including the `IndexError`s Python raises on out-of-range subscripts
(`or` short-circuits, so `elements[1]` is only reached when the first
comparison is false). -/
def permStartOk (elements : List String) (perm : List String) : Except PyErr Bool :=
  match perm with
  | [] => .error .indexError
  | p :: _ =>
    match elements with
    | [] => .error .indexError
    | e0 :: rest =>
      if p = e0 then .ok true
      else
        match rest with
        | [] => .error .indexError
        | e1 :: _ => .ok (p = e1)

/-- Tags.priority_based_permutations (the last of the three definitions in
the class body, which is the one Python keeps): permutations of the
size-`n` combinations (and size-`n-1` when `n > 2`) that start with the
first or second tag, deduplicated keeping first occurrences, plus each
single tag when there is more than one.  Raises `IndexError` via
`perm[0]` when the tag list is empty.  Permutations are enumerated with
`List.permutations'`, whose order differs from itertools' — this affects
only the order of the deduplicated output, not its membership or the
raised exception. -/
def priority_based_permutations (elements : List String) : Except PyErr (List (List String)) := do
  let n := elements.length
  let sizes := if n > 2 then [n, n - 1] else [n]
  let cands := sizes.flatMap
    (fun i => (combinationsOf i elements).flatMap List.permutations')
  let result ← filterExc (permStartOk elements) cands
  let final := dedupKeepFirst result
  return final ++ (if elements.length > 1 then elements.map (fun e => [e]) else [])

/-- Tags.to_filter: computes the tag filter for the chosen strategy first
(so the priority strategy is evaluated even for empty tag lists), then
returns `None` when the tag list is empty, otherwise the filter value
(the `tags` entry of the returned dict). -/
def to_filter (powerset : Bool) (tags : List String) :
    Except PyErr (Option (List (List String))) := do
  let tagsFilter ← if powerset then pure (generate_powerset_with_permutations tags)
                   else priority_based_permutations tags
  if tags.isEmpty then return none
  return some tagsFilter

/-! Metadata and Document (`typing.py`).  Times are modelled over `ℚ`
(epoch seconds); `valid_time` is an integer with `-1` as sentinel. -/

structure Metadata where
  ids : String
  splitter : String
  related : Bool
  valid_time : Int
  start_time : ℚ
  tags : List String
deriving DecidableEq

structure Document where
  page_content : String
  metadata : Metadata
deriving DecidableEq

/-- Document.is_valid, with `time.time()` passed in as `current_time`:
true when `valid_time == -1`, otherwise
`start_time + valid_time >= current_time`. -/
def Document.is_valid (doc : Document) (current_time : ℚ) : Bool :=
  if doc.metadata.valid_time = -1 then true
  else decide (doc.metadata.start_time + (doc.metadata.valid_time : ℚ) ≥ current_time)

/-! VectorStore (`vectorstore.py`).  Embedding vectors are modelled over
`ℚ`; the embedding model is an explicit parameter `embedText` standing
for `HuggingFaceEmbeddings._embed_texts` applied to a single text (the
batched call maps it over the input texts; the model lives outside this
repository and is deterministic per the spec).  The store state is the
triple of the mutable fields `docstore`, `index_to_docstore_id` and the
FAISS index contents. -/

structure VSState where
  docstore : List (String × Document)
  index_to_docstore_id : List (Nat × String)
  vectors : List (List ℚ)
deriving DecidableEq

def emptyState : VSState := ⟨[], [], []⟩

/-- Squared L2 distance, the score faiss.IndexFlatL2 reports. -/
def sqDist (a b : List ℚ) : ℚ :=
  (List.zipWith (fun x y => (x - y) * (x - y)) a b).sum

/-- Ordering of search hits: ascending distance, ties by slot. -/
def hitLe (p q : Nat × ℚ) : Prop :=
  p.2 < q.2 ∨ (p.2 = q.2 ∧ p.1 ≤ q.1)

instance : DecidableRel hitLe := by
  intro p q
  unfold hitLe
  infer_instance

/-- faiss.IndexFlatL2.search on one query vector: the `k` best
`(slot, squared-L2-distance)` pairs ascending by distance, padded with
the sentinel slot `-1` when the index holds fewer than `k` vectors. -/
def indexSearch (vectors : List (List ℚ)) (q : List ℚ) (k : Nat) : List (Int × ℚ) :=
  let sorted := List.insertionSort hitLe (vectors.map (sqDist q)).enum
  let top := (sorted.take k).map (fun (p : Nat × ℚ) => ((p.1 : Int), p.2))
  top ++ List.replicate (k - top.length) (-1, 0)

/-- The candidate-resolution loop of
`similarity_search_with_score_by_vector`: skip sentinel slots, resolve
`index_to_docstore_id[i]` (KeyError when absent), fetch the docstore
entry (`VectorStoreError` when that yields no Document), and apply the
tags filter by exact membership of the document's stored tag list in the
accepted-value list (the filter normalisation step wraps non-list values,
which leaves the list-valued tags filter unchanged). -/
def simSearchLoop (st : VSState) (filter : Option (List (List String))) :
    List (Int × ℚ) → Except PyErr (List (Document × ℚ))
  | [] => .ok []
  | (i, score) :: rest =>
    if i = -1 then simSearchLoop st filter rest
    else
      match dictLookup st.index_to_docstore_id i.toNat with
      | none => .error .keyError
      | some did =>
        match dictLookup st.docstore did with
        | none => .error .vectorStoreError
        | some doc => do
          let tail ← simSearchLoop st filter rest
          match filter with
          | some accepted =>
            if doc.metadata.tags ∈ accepted then return (doc, score) :: tail
            else return tail
          | none => return (doc, score) :: tail

/-- VectorStore.similarity_search_with_score_by_vector: search the index
for `k` (or `fetch_k` when a filter is present) candidates, resolve and
filter them, apply the `score_threshold` keep-if-`<=` filter, and return
the first `k`.  The function never assigns to `self`, so the state is
returned unchanged alongside the result. -/
def similarity_search_with_score_by_vector (st : VSState) (embedding : List ℚ)
    (k : Nat) (filter : Option (List (List String))) (fetch_k : Nat)
    (score_threshold : Option ℚ) :
    Except PyErr (List (Document × ℚ)) × VSState :=
  let hits := indexSearch st.vectors embedding (if filter.isNone then k else fetch_k)
  match simSearchLoop st filter hits with
  | .error e => (.error e, st)
  | .ok docs =>
    let kept := match score_threshold with
      | some t => docs.filter (fun (p : Document × ℚ) => decide (p.2 ≤ t))
      | none => docs
    (.ok (kept.take k), st)

/-- VectorStore.search: expand the Metadata filter via `to_filter`
(raising whatever it raises), add the `threshold_offset = 0.01` to any
`score_threshold`, embed the query, delegate to
`similarity_search_with_score_by_vector`, keep the documents valid at
call time, and truncate to `k`. -/
def search (embedText : String → List ℚ) (st : VSState) (query : String)
    (k : Nat) (filter : Option Metadata) (fetch_k : Nat) (powerset : Bool)
    (score_threshold : Option ℚ) (now : ℚ) :
    Except PyErr (List Document) × VSState :=
  match (match filter with
         | some md => to_filter powerset md.tags
         | none => .ok none) with
  | .error e => (.error e, st)
  | .ok fil =>
    let thr := score_threshold.map (fun s => s + 1 / 100)
    match similarity_search_with_score_by_vector st (embedText query) k fil fetch_k thr with
    | (.error e, st1) => (.error e, st1)
    | (.ok das, st1) =>
      (.ok (((das.filter (fun p => p.1.is_valid now)).map Prod.fst).take k), st1)

def dotQ (a b : List ℚ) : ℚ := (List.zipWith (· * ·) a b).sum

def sqNormQ (a : List ℚ) : ℚ := dotQ a a

/-- Decides whether `np.dot(a, b) / (np.linalg.norm(a) * np.linalg.norm(b))
> s` (VectorStore._cosine_similarity compared against the threshold)
without leaving `ℚ`: with `d = a·b` and `q = |a|²|b|²` the cosine exceeds
`s` iff `q ≠ 0` and either `d ≥ 0` and (`s < 0` or `s²q < d²`), or
`d < 0 ∧ s < 0 ∧ d² < s²q`.  A zero norm makes the Python expression a
NaN and `NaN > s` is false, matching the `q = 0` branch. -/
def cosineSimGT (a b : List ℚ) (s : ℚ) : Bool :=
  let d := dotQ a b
  let q := sqNormQ a * sqNormQ b
  if q = 0 then false
  else if 0 ≤ d then (if 0 ≤ s then decide (s * s * q < d * d) else true)
  else (if 0 ≤ s then false else decide (d * d < s * s * q))

/-- The per-document insertion loop of `add_documents`: each triple
`(doc, embed, id)` comes from the batch embedding and the id list.  For
each document the current state is probed for its 2 nearest neighbours;
a neighbour whose recomputed embedding has cosine similarity above the
threshold marks the document as duplicate (skipped); otherwise the
vector is appended to the index, the docstore entry stored, and the
mapping extended with the next sequential slot. -/
def addLoop (embedText : String → List ℚ) (s : ℚ) :
    List (Document × List ℚ × String) → VSState → List Document →
    Except PyErr (List Document) × VSState
  | [], st, added => (.ok added, st)
  | (doc, embed, did) :: rest, st, added =>
    match similarity_search_with_score_by_vector st embed 2 none 20 none with
    | (.error e, st1) => (.error e, st1)
    | (.ok similar, st1) =>
      if similar.any (fun p => cosineSimGT embed (embedText p.1.page_content) s) then
        addLoop embedText s rest st1 added
      else
        addLoop embedText s rest
          { docstore := dictInsert st1.docstore did doc
            index_to_docstore_id :=
              st1.index_to_docstore_id ++ [(st1.index_to_docstore_id.length, did)]
            vectors := st1.vectors ++ [embed] }
          (added ++ [doc])

/-- VectorStore.add_documents with an explicit id list (`ids=None`
defaults to freshly generated UUID4 strings, modelled by the caller
passing a list of fresh pairwise-distinct ids); a length mismatch
between ids and docs raises ValueError before any mutation. -/
def add_documents (embedText : String → List ℚ) (st : VSState)
    (docs : List Document) (ids : List String) (similarity_threshold : ℚ) :
    Except PyErr (List Document) × VSState :=
  if ids.length ≠ docs.length then (.error .valueError, st)
  else
    addLoop embedText similarity_threshold
      (docs.zip ((docs.map (fun d => embedText d.page_content)).zip ids)) st []

inductive RemoveResult
  | cleared (n_removed n_total : Nat)
  | removed (docs : List Document)
deriving DecidableEq

/-- The `del self.docstore[d_id]; del self.index_to_docstore_id[i_id]`
loop over `zip(index_ids, target_id_list)`: a missing key raises
KeyError, leaving the deletions performed so far (and the docstore half
of the failing step) in place. -/
def delLoop : List (Nat × String) → VSState → Except PyErr Unit × VSState
  | [], st => (.ok (), st)
  | (iid, did) :: rest, st =>
    if (dictLookup st.docstore did).isSome then
      if (dictLookup st.index_to_docstore_id iid).isSome then
        delLoop rest
          { st with docstore := dictErase st.docstore did,
                    index_to_docstore_id := dictErase st.index_to_docstore_id iid }
      else (.error .keyError, { st with docstore := dictErase st.docstore did })
    else (.error .keyError, st)

/-- faiss remove_ids on IndexFlatL2: deletes the vectors at the given
slots and compacts the remaining ones in order. -/
def removeIdsFromVectors (vectors : List (List ℚ)) (ids : List Nat) : List (List ℚ) :=
  (vectors.enum.filter (fun p => !(ids.contains p.1))).map Prod.snd

/-- VectorStore.remove_documents_by_id: `None` clears everything and
returns the counts; otherwise duplicate ids raise `VectorStoreError`,
the target ids are resolved to slots via the mapping, those slots are
removed from the index, the deletion loop runs over
`zip(index_ids, target_id_list)`, and the mapping is renumbered by
enumerating its remaining values. -/
def remove_documents_by_id (st : VSState) (target : Option (List String)) :
    Except PyErr RemoveResult × VSState :=
  match target with
  | none =>
    let n := st.vectors.length
    (.ok (.cleared n n), ⟨[], [], []⟩)
  | some tgt =>
    if ¬ tgt.Nodup then (.error .vectorStoreError, st)
    else
      let index_ids :=
        (st.index_to_docstore_id.filter (fun p => tgt.contains p.2)).map Prod.fst
      let removed := tgt.filterMap (fun did => dictLookup st.docstore did)
      let st1 := { st with vectors := removeIdsFromVectors st.vectors index_ids }
      match delLoop (index_ids.zip tgt) st1 with
      | (.error e, st2) => (.error e, st2)
      | (.ok _, st2) =>
        (.ok (.removed removed),
          { st2 with index_to_docstore_id := (st2.index_to_docstore_id.map Prod.snd).enum })

/-- VectorStore.rebuild_index: re-embeds every docstore entry (the chunked
thread-pool embedding concatenates the per-chunk batches in input order)
into a fresh index with a freshly enumerated mapping.  With fewer than 12
documents `chunk_size = len(all_docs) // num_threads` is `0`, so Python's
`range(0, len, 0)` raises ValueError before anything is replaced. -/
def rebuild_index (embedText : String → List ℚ) (st : VSState) :
    Except PyErr Unit × VSState :=
  if st.docstore.length / 12 = 0 then (.error .valueError, st)
  else
    (.ok (),
      { docstore := st.docstore
        index_to_docstore_id := (st.docstore.map Prod.fst).enum
        vectors := st.docstore.map (fun p => embedText p.2.page_content) })

/-! Persistence (`_perform_save_operation`).  The disk holds the two
files of a named index and their transient backup siblings; file contents
are the serialised payloads (`<name>.faiss` holds the index vectors,
`<name>.pkl` holds the `(docstore, index_to_docstore_id)` pair). -/

inductive FileContent
  | faissData (vectors : List (List ℚ))
  | pklData (docstore : List (String × Document)) (mapping : List (Nat × String))
  | corrupt
deriving DecidableEq

structure Disk where
  faiss : Option FileContent
  pkl : Option FileContent
  bak_faiss : Option FileContent
  bak_pkl : Option FileContent
deriving DecidableEq

/-- Fault-injection points inside the try block of the save operation:
the `rebuild_index()` call and each of the two file writes.  A faulted
write leaves a partially written (`corrupt`) target file behind. -/
inductive SaveStep
  | rebuildStep
  | writeFaiss
  | writePkl
deriving DecidableEq

/-- The except/finally tail of `_perform_save_operation`: copy each
backup over its original when the backup file exists, then (finally)
remove any backup files. -/
def restoreAndClean (d : Disk) : Disk :=
  { faiss := if d.bak_faiss.isSome then d.bak_faiss else d.faiss
    pkl := if d.bak_pkl.isSome then d.bak_pkl else d.pkl
    bak_faiss := none
    bak_pkl := none }

/-- VectorStore._perform_save_operation: back up the existing files (a
missing original leaves any existing backup file in place), call
`rebuild_index`, write both files, and on any failure restore from the
backups; the finally block removes the backup files in every outcome.
`fault` injects a failure at the given step (the rebuild step also fails
on its own for stores with fewer than 12 documents, and injected faults
surface as a generic exception); failures during the backup copies
themselves are not modelled. -/
def perform_save_operation (embedText : String → List ℚ) (st : VSState)
    (d : Disk) (fault : Option SaveStep) :
    Except PyErr Unit × VSState × Disk :=
  let d1 : Disk :=
    { d with bak_faiss := if d.faiss.isSome then d.faiss else d.bak_faiss
             bak_pkl := if d.pkl.isSome then d.pkl else d.bak_pkl }
  if fault = some .rebuildStep then (.error .valueError, st, restoreAndClean d1)
  else
    match rebuild_index embedText st with
    | (.error e, st1) => (.error e, st1, restoreAndClean d1)
    | (.ok _, st1) =>
      if fault = some .writeFaiss then
        (.error .valueError, st1, restoreAndClean { d1 with faiss := some .corrupt })
      else
        let d2 := { d1 with faiss := some (.faissData st1.vectors) }
        if fault = some .writePkl then
          (.error .valueError, st1, restoreAndClean { d2 with pkl := some .corrupt })
        else
          (.ok (), st1,
            { d2 with pkl := some (.pklData st1.docstore st1.index_to_docstore_id)
                      bak_faiss := none
                      bak_pkl := none })

/-! The mutation step relation for the structural invariant. -/

/-- A fresh id list for an add: pairwise distinct and absent from the
docstore, as the default `uuid4`-generated ids are. -/
def idsFresh (st : VSState) (ids : List String) : Prop :=
  ids.Nodup ∧ ∀ i ∈ ids, dictLookup st.docstore i = none

/-- One completed mutation (result `.ok`): an `add_documents` call with
fresh ids, a completed `remove_documents_by_id`, or a completed
`rebuild_index`. -/
inductive VStep (embedText : String → List ℚ) : VSState → VSState → Prop
  | add {st docs ids s ret st1} (hfresh : idsFresh st ids)
      (h : add_documents embedText st docs ids s = (.ok ret, st1)) :
      VStep embedText st st1
  | remove {st tgt ret st1}
      (h : remove_documents_by_id st tgt = (.ok ret, st1)) :
      VStep embedText st st1
  | rebuild {st st1}
      (h : rebuild_index embedText st = (.ok (), st1)) :
      VStep embedText st st1

/-- States reachable from the empty store by completed mutations. -/
inductive VReachable (embedText : String → List ℚ) : VSState → Prop
  | init : VReachable embedText emptyState
  | step {st st1} : VReachable embedText st → VStep embedText st st1 →
      VReachable embedText st1

/-- The strengthened structural invariant: the mapping is exactly the
enumeration of the docstore keys (slots `0..N-1` in docstore order), the
docstore keys are distinct, and the index holds one vector per entry. -/
def Inv (st : VSState) : Prop :=
  st.index_to_docstore_id = (st.docstore.map Prod.fst).enum ∧
  (st.docstore.map Prod.fst).Nodup ∧
  st.vectors.length = st.docstore.length

/-! Removal of an absent id (C7). -/

/-! Concrete embedders, documents, stores and disks used by the witnesses
and counterexamples below. -/

def doc0 : Document := ⟨"d", ⟨"m0", "default", false, -1, 0, []⟩⟩

def st7 : VSState := ⟨[("d0", doc0)], [(0, "d0")], [[1]]⟩

/-- A constant mock embedder for the empty-tag filter evaluation. -/
def embedC5 : String → List ℚ := fun _ => [1]

/-- A mock embedder sending every text to the same unit vector. -/
def embedW : String → List ℚ := fun _ => [1, 0]

def docX : Document := ⟨"x", ⟨"mx", "default", false, -1, 0, []⟩⟩

def docX2 : Document := ⟨"x2", ⟨"m2", "default", false, -1, 0, []⟩⟩

def stW3 : VSState := ⟨[("a", docX)], [(0, "a")], [[1, 0]]⟩

def docD : Document := ⟨"d", ⟨"md", "default", false, -1, 0, []⟩⟩

/-- A mock embedder: the query text `q` embeds to `[0]`, everything else
to `[1]`, so the stored document sits at squared L2 distance 1. -/
def embedC6 : String → List ℚ := fun t => if t = "q" then [0] else [1]

def stC6 : VSState := ⟨[("a", docD)], [(0, "a")], [[1]]⟩

/-- A 12-document store, the smallest size whose rebuild succeeds. -/
def stBig : VSState := ⟨List.replicate 12 ("k", doc0), [], []⟩

def dW4 : Disk := ⟨some (.faissData []), some (.pklData [] []), none, none⟩

/-- The embedder used by the counterexample: `"x"` and `"y"` map to
orthogonal unit vectors, so neither document is a near-duplicate of the
other. -/
def embedCX : String → List ℚ := fun t => if t = "x" then [1, 0] else [0, 1]

def docY : Document := ⟨"y", ⟨"my", "default", false, -1, 0, []⟩⟩

def stCX1 : VSState := ⟨[("a", docX)], [(0, "a")], [[1, 0]]⟩

def stCX2 : VSState := ⟨[("a", docY)], [(0, "a"), (1, "a")], [[1, 0], [0, 1]]⟩

/-! Theorems about the tag data model. -/

lemma powersetLoop_append_singleton (l : List String) (a : String) :
    powersetLoop (l ++ [a]) = powersetLoop l ++ (powersetLoop l).map (fun s => s ++ [a]) := by
  unfold powersetLoop
  rw [List.foldl_append]
  rfl

lemma powersetLoop_eq_sublists (tags : List String) : powersetLoop tags = tags.sublists := by
  induction tags using List.reverseRecOn with
  | nil => rfl
  | append_singleton l a ih =>
    rw [powersetLoop_append_singleton, ih, List.sublists_concat]

/-- C2: `generate_powerset_with_permutations` returns exactly the set of
permutations of subsets of the tag list (equivalently, the lists that are
sub-permutations of it), deduplicated and sorted by
`(length, lexicographic)`; on `["a","b"]` it returns exactly
`[[], ["a"], ["b"], ["a","b"], ["b","a"]]`. -/
theorem generate_powerset_correct :
    (∀ tags l : List String,
        l ∈ generate_powerset_with_permutations tags ↔ l.Subperm tags) ∧
    (∀ tags : List String,
        (generate_powerset_with_permutations tags).Nodup ∧
        List.Sorted tagKeyLe (generate_powerset_with_permutations tags)) ∧
    generate_powerset_with_permutations ["a", "b"] =
      [[], ["a"], ["b"], ["a", "b"], ["b", "a"]] := by
  refine ⟨?_, ?_, by decide⟩
  · intro tags l
    unfold generate_powerset_with_permutations
    rw [(List.perm_insertionSort tagKeyLe _).mem_iff, List.mem_dedup, List.mem_flatMap]
    constructor
    · rintro ⟨s, hs, hl⟩
      rw [powersetLoop_eq_sublists, List.mem_sublists] at hs
      rw [List.mem_permutations'] at hl
      exact ⟨s, hl.symm, hs⟩
    · rintro ⟨s, hsl, hsub⟩
      refine ⟨s, ?_, ?_⟩
      · rw [powersetLoop_eq_sublists, List.mem_sublists]; exact hsub
      · rw [List.mem_permutations']; exact hsl.symm
  · intro tags
    constructor
    · exact (List.perm_insertionSort tagKeyLe _).nodup_iff.mpr (List.nodup_dedup _)
    · exact List.sorted_insertionSort tagKeyLe _

/-- C8: evaluation at the failing input: `add_tag` appends a tag that is
already present (the method docstring and the spec promise duplicates are
rejected), so `Tags(["a"]).add_tag("a")` yields `["a","a"]`; the
remove-if-absent half of the claim does hold (`remove_tag` of an absent
tag is a no-op). -/
theorem add_tag_duplicate_bug :
    add_tag ["a"] "a" = ["a", "a"] ∧ add_tag ["a"] "a" ≠ ["a"] ∧
    remove_tag ["a"] "b" = ["a"] := by
  refine ⟨rfl, by decide, by decide⟩


/-- C9 counterexample: a document with `valid_time = 5` and
`start_time = 10` is reported valid at time `3`, which is outside the
claimed exact validity interval `[10, 15]`; validity is not bounded below
by `start_time`. -/
theorem validity_window_cx :
    Document.is_valid ⟨"c", ⟨"i", "default", false, 5, 10, []⟩⟩ 3 = true ∧
    ¬ ((3 : ℚ) ∈ Set.Icc (10 : ℚ) (10 + 5)) := by
  constructor
  · norm_num [Document.is_valid]
  · norm_num

/-- C9 amended: `is_valid` at time `t` is true iff `valid_time = -1` or
`t ≤ start_time + valid_time`; with `valid_time = 5`, `start_time = T`
the document is valid exactly for `t ≤ T + 5` (so throughout `[T, T+5]`,
endpoints included, but also at every earlier `t`), and with
`valid_time = -1` at every `t`. -/
theorem validity_window_amended :
    (∀ (doc : Document) (t : ℚ),
        doc.is_valid t = true ↔
          (doc.metadata.valid_time = -1 ∨
            t ≤ doc.metadata.start_time + (doc.metadata.valid_time : ℚ))) ∧
    (∀ (pc ids sp : String) (rel : Bool) (tg : List String) (T t : ℚ),
        (Document.mk pc ⟨ids, sp, rel, 5, T, tg⟩).is_valid t = true ↔ t ≤ T + 5) ∧
    (∀ (pc ids sp : String) (rel : Bool) (tg : List String) (T t : ℚ),
        (Document.mk pc ⟨ids, sp, rel, -1, T, tg⟩).is_valid t = true) := by
  refine ⟨?_, ?_, ?_⟩
  · intro doc t
    unfold Document.is_valid
    split
    · simp [*]
    · rename_i h
      simp [h, ge_iff_le]
  · intro pc ids sp rel tg T t
    unfold Document.is_valid
    norm_num
  · intro pc ids sp rel tg T t
    rfl

/-! Helper lemmas about the dictionary and enumeration models. -/

lemma dictLookup_eq_none_iff {κ ν : Type} [DecidableEq κ] (d : List (κ × ν)) (k : κ) :
    dictLookup d k = none ↔ k ∉ d.map Prod.fst := by
  unfold dictLookup
  rw [Option.map_eq_none', List.find?_eq_none]
  constructor
  · intro h hk
    obtain ⟨p, hp, he⟩ := List.mem_map.mp hk
    exact h p hp (decide_eq_true he)
  · intro h p hp hpk
    exact h (List.mem_map.mpr ⟨p, hp, of_decide_eq_true hpk⟩)

lemma dictLookup_isSome_iff {κ ν : Type} [DecidableEq κ] (d : List (κ × ν)) (k : κ) :
    (dictLookup d k).isSome = true ↔ k ∈ d.map Prod.fst := by
  unfold dictLookup
  rw [Option.isSome_map', List.find?_isSome]
  constructor
  · rintro ⟨p, hp, he⟩
    exact List.mem_map.mpr ⟨p, hp, of_decide_eq_true he⟩
  · intro hk
    obtain ⟨p, hp, he⟩ := List.mem_map.mp hk
    exact ⟨p, hp, decide_eq_true he⟩

lemma dictInsert_fresh {κ ν : Type} [DecidableEq κ] {d : List (κ × ν)} {k : κ}
    (h : k ∉ d.map Prod.fst) (v : ν) :
    dictInsert d k v = d ++ [(k, v)] := by
  unfold dictInsert
  rw [if_neg]
  intro hs
  rw [List.find?_isSome] at hs
  obtain ⟨x, hx, he⟩ := hs
  exact h (List.mem_map.mpr ⟨x, hx, of_decide_eq_true he⟩)

lemma dictErase_of_nodup {κ ν : Type} [DecidableEq κ] :
    ∀ {d : List (κ × ν)}, (d.map Prod.fst).Nodup → ∀ k,
      dictErase d k = d.filter (fun p => decide (p.1 ≠ k))
  | [], _, _ => rfl
  | a :: d, h, k => by
    rw [List.map_cons, List.nodup_cons] at h
    have hstep : dictErase (a :: d) k = bif decide (a.1 = k) then d else a :: dictErase d k := by
      unfold dictErase
      rw [List.eraseP_cons]
    rw [hstep, List.filter_cons]
    by_cases hk : a.1 = k
    · rw [Bool.cond_eq_if, if_pos (decide_eq_true hk), if_neg (by simp [hk])]
      symm
      rw [List.filter_eq_self]
      intro p hp
      simp only [ne_eq, decide_eq_true_eq]
      intro hpk
      have hmem : p.1 ∈ List.map Prod.fst d := List.mem_map_of_mem Prod.fst hp
      rw [hpk, ← hk] at hmem
      exact h.1 hmem
    · rw [Bool.cond_eq_if, if_neg (by simp [hk]), if_pos (decide_eq_true hk),
        dictErase_of_nodup h.2 k]

lemma eq_of_mem_of_map_fst_nodup {κ ν : Type} :
    ∀ {d : List (κ × ν)}, (d.map Prod.fst).Nodup →
      ∀ {p q : κ × ν}, p ∈ d → q ∈ d → p.1 = q.1 → p = q
  | [], _, _, _, hp, _, _ => absurd hp (List.not_mem_nil _)
  | a :: d, h, p, q, hp, hq, he => by
    rw [List.map_cons, List.nodup_cons] at h
    rcases List.mem_cons.mp hp with hpa | hp'
    · rcases List.mem_cons.mp hq with hqa | hq'
      · rw [hpa, hqa]
      · have hmem : q.1 ∈ List.map Prod.fst d := List.mem_map_of_mem Prod.fst hq'
        rw [← he, hpa] at hmem
        exact absurd hmem h.1
    · rcases List.mem_cons.mp hq with hqa | hq'
      · have hmem : p.1 ∈ List.map Prod.fst d := List.mem_map_of_mem Prod.fst hp'
        rw [he, hqa] at hmem
        exact absurd hmem h.1
      · exact eq_of_mem_of_map_fst_nodup h.2 hp' hq' he

lemma enumFrom_append_singleton {α : Type} (a : α) :
    ∀ (i : Nat) (l : List α),
      List.enumFrom i (l ++ [a]) = List.enumFrom i l ++ [(i + l.length, a)]
  | i, [] => by simp
  | i, b :: l => by
    rw [List.cons_append, List.enumFrom_cons, List.enumFrom_cons,
      enumFrom_append_singleton a (i + 1) l]
    simp
    omega

lemma enum_append_singleton {α : Type} (l : List α) (a : α) :
    (l ++ [a]).enum = l.enum ++ [(l.length, a)] := by
  unfold List.enum
  rw [enumFrom_append_singleton]
  simp

lemma enumFrom_filter_snd {α : Type} (p : α → Bool) :
    ∀ (i : Nat) (l : List α),
      ((List.enumFrom i l).filter (fun q => p q.2)).map Prod.snd = l.filter p
  | _, [] => rfl
  | i, a :: l => by
    rw [List.enumFrom_cons, List.filter_cons, List.filter_cons]
    by_cases ha : p a = true
    · rw [if_pos (by simpa using ha), if_pos ha, List.map_cons,
        enumFrom_filter_snd p (i + 1) l]
    · rw [if_neg (by simpa using ha), if_neg ha, enumFrom_filter_snd p (i + 1) l]

lemma nodup_length_le_of_subset {α : Type} [DecidableEq α] {l₁ l₂ : List α}
    (h₁ : l₁.Nodup) (s : l₁ ⊆ l₂) : l₁.length ≤ l₂.length := by
  calc l₁.length = l₁.toFinset.card := (List.toFinset_card_of_nodup h₁).symm
    _ ≤ l₂.toFinset.card := Finset.card_le_card (fun x hx =>
        List.mem_toFinset.mpr (s (List.mem_toFinset.mp hx)))
    _ ≤ l₂.length := List.toFinset_card_le l₂

lemma mem_of_subset_of_length_ge {α : Type} [DecidableEq α] {l₁ l₂ : List α}
    (h₁ : l₁.Nodup) (h₂ : l₂.Nodup) (s : l₁ ⊆ l₂) (hlen : l₂.length ≤ l₁.length) :
    ∀ x ∈ l₂, x ∈ l₁ := by
  intro x hx
  have hs : l₁.toFinset = l₂.toFinset := by
    apply Finset.eq_of_subset_of_card_le
    · intro y hy
      exact List.mem_toFinset.mpr (s (List.mem_toFinset.mp hy))
    · rw [List.toFinset_card_of_nodup h₁, List.toFinset_card_of_nodup h₂]
      exact hlen
  exact List.mem_toFinset.mp (hs ▸ List.mem_toFinset.mpr hx)

/-! Read operations do not mutate the store. -/

lemma simSearch_snd (st : VSState) (e : List ℚ) (k : Nat)
    (f : Option (List (List String))) (fk : Nat) (t : Option ℚ) :
    (similarity_search_with_score_by_vector st e k f fk t).2 = st := by
  simp only [similarity_search_with_score_by_vector]
  split <;> rfl

/-- C10: search and similarity_search_with_score_by_vector are
mutation-free: for every query, k, filter, fetch_k and score threshold,
the store state after the call is the state before it (no statement of
either method assigns to the store's fields). -/
theorem read_ops_pure :
    (∀ (st : VSState) (e : List ℚ) (k : Nat) (f : Option (List (List String)))
        (fk : Nat) (t : Option ℚ),
        (similarity_search_with_score_by_vector st e k f fk t).2 = st) ∧
    (∀ (embedText : String → List ℚ) (st : VSState) (q : String) (k : Nat)
        (fil : Option Metadata) (fk : Nat) (pw : Bool) (t : Option ℚ) (now : ℚ),
        (search embedText st q k fil fk pw t now).2 = st) := by
  refine ⟨simSearch_snd, ?_⟩
  intro embedText st q k fil fk pw t now
  unfold search
  split
  · rfl
  · rename_i fil' heq
    have h := simSearch_snd st (embedText q) k fil' fk (Option.map (fun s => s + 1 / 100) t)
    dsimp only
    split
    · rename_i e st1 heq2
      rw [heq2] at h
      simpa using h
    · rename_i das st1 heq2
      rw [heq2] at h
      simpa using h

/-- C7: evaluation at the failing input.  On the store holding only
document `d0`, `remove_documents_by_id(["missing", "d0"])` raises
KeyError only after the vector was already removed from the index (the
returned state has an empty index but a non-empty docstore), and
`remove_documents_by_id(["d0", "missing"])` raises nothing at all — the
absent id is silently ignored because `zip(index_ids, target_id_list)`
truncates.  Both contradict "error surfaced to the caller and no
mutation performed". -/
theorem remove_absent_id_bug :
    remove_documents_by_id st7 (some ["missing", "d0"]) =
      (.error .keyError, ⟨[("d0", doc0)], [(0, "d0")], []⟩) ∧
    (⟨[("d0", doc0)], [(0, "d0")], []⟩ : VSState) ≠ st7 ∧
    remove_documents_by_id st7 (some ["d0", "missing"]) =
      (.ok (.removed [doc0]), ⟨[], [], []⟩) := by
  refine ⟨rfl, by decide, rfl⟩

/-- C5: evaluation at the failing input: with an empty tag list,
`to_filter(powerset=False)` evaluates `priority_based_permutations`
before the emptiness check, and that method raises IndexError on
`perm[0]` for the empty permutation, so the claimed `None` bypass only
happens on the `powerset=True` path.  Consequently a `search` given an
empty-tag Metadata filter raises IndexError when `powerset=False`, while
the `powerset=True` call does bypass the filter and succeed.  (The
`search` conjuncts are stated on the empty store with a constant
embedder `embedC5`.) -/
theorem to_filter_empty_tags_bug :
    to_filter false [] = .error .indexError ∧
    to_filter true [] = .ok none ∧
    search embedC5 emptyState "q" 5 (some ⟨"i", "default", false, -1, 0, []⟩) 20 false
        none 0 = (.error .indexError, emptyState) ∧
    search embedC5 emptyState "q" 5 (some ⟨"i", "default", false, -1, 0, []⟩) 20 true
        none 0 = (.ok [], emptyState) := by
  exact ⟨rfl, rfl, rfl, rfl⟩

/-! Deduplication on insert (C3). -/

lemma sqNormQ_nonneg (a : List ℚ) : 0 ≤ sqNormQ a := by
  unfold sqNormQ dotQ
  rw [List.zipWith_same]
  apply List.sum_nonneg
  intro x hx
  obtain ⟨y, hy, rfl⟩ := List.mem_map.mp hx
  exact mul_self_nonneg y

/-- The Boolean `cosineSimGT` decides exactly the comparison the Python
code performs: for vectors of nonzero norm, it is true iff the real
cosine similarity `dot(a,b) / (‖a‖ ‖b‖)` exceeds the threshold `s`
(with a zero norm the Python expression is a NaN and every comparison
with it is false, the `false` branch of the definition). -/
lemma cosineSimGT_iff (a b : List ℚ) (s : ℚ) (h : sqNormQ a * sqNormQ b ≠ 0) :
    cosineSimGT a b s = true ↔
      (s : ℝ) < (dotQ a b : ℝ) /
        (Real.sqrt ((sqNormQ a : ℝ)) * Real.sqrt ((sqNormQ b : ℝ))) := by
  have hqa := sqNormQ_nonneg a
  have hqb := sqNormQ_nonneg b
  have hqa' : (0 : ℝ) ≤ (sqNormQ a : ℝ) := by exact_mod_cast hqa
  have hqb' : (0 : ℝ) ≤ (sqNormQ b : ℝ) := by exact_mod_cast hqb
  obtain ⟨ha0, hb0⟩ := mul_ne_zero_iff.mp h
  have hqa2 : (0 : ℝ) < (sqNormQ a : ℝ) :=
    lt_of_le_of_ne hqa' (by exact_mod_cast (Ne.symm ha0))
  have hqb2 : (0 : ℝ) < (sqNormQ b : ℝ) :=
    lt_of_le_of_ne hqb' (by exact_mod_cast (Ne.symm hb0))
  have hA : (0 : ℝ) < Real.sqrt (sqNormQ a : ℝ) := Real.sqrt_pos.mpr hqa2
  have hB : (0 : ℝ) < Real.sqrt (sqNormQ b : ℝ) := Real.sqrt_pos.mpr hqb2
  have hN : (0 : ℝ) < Real.sqrt (sqNormQ a : ℝ) * Real.sqrt (sqNormQ b : ℝ) :=
    mul_pos hA hB
  have hNsq : (Real.sqrt (sqNormQ a : ℝ) * Real.sqrt (sqNormQ b : ℝ)) *
      (Real.sqrt (sqNormQ a : ℝ) * Real.sqrt (sqNormQ b : ℝ)) =
      (sqNormQ a : ℝ) * (sqNormQ b : ℝ) := by
    have h1 := Real.mul_self_sqrt hqa'
    have h2 := Real.mul_self_sqrt hqb'
    nlinarith [h1, h2]
  have hdiv : ∀ x : ℝ, (x < (dotQ a b : ℝ) /
      (Real.sqrt (sqNormQ a : ℝ) * Real.sqrt (sqNormQ b : ℝ))) ↔
      x * (Real.sqrt (sqNormQ a : ℝ) * Real.sqrt (sqNormQ b : ℝ)) < (dotQ a b : ℝ) :=
    fun x => lt_div_iff₀ hN
  simp only [cosineSimGT]
  rw [if_neg h]
  by_cases hd : 0 ≤ dotQ a b
  · rw [if_pos hd]
    have hd' : (0 : ℝ) ≤ (dotQ a b : ℝ) := by exact_mod_cast hd
    by_cases hs : 0 ≤ s
    · rw [if_pos hs]
      have hs' : (0 : ℝ) ≤ (s : ℝ) := by exact_mod_cast hs
      rw [decide_eq_true_eq, hdiv]
      have hsN : (0 : ℝ) ≤ (s : ℝ) * (Real.sqrt (sqNormQ a : ℝ) * Real.sqrt (sqNormQ b : ℝ)) :=
        mul_nonneg hs' (le_of_lt hN)
      rw [mul_self_lt_mul_self_iff hsN hd']
      constructor
      · intro hlt
        have hlt' : ((s : ℝ)) * ((s : ℝ)) * (((sqNormQ a : ℝ)) * ((sqNormQ b : ℝ))) <
            ((dotQ a b : ℝ)) * ((dotQ a b : ℝ)) := by exact_mod_cast hlt
        nlinarith [hNsq, hlt']
      · intro hlt
        have h1 : (s : ℝ) * (s : ℝ) * ((sqNormQ a : ℝ) * (sqNormQ b : ℝ)) <
            (dotQ a b : ℝ) * (dotQ a b : ℝ) := by nlinarith [hNsq, hlt]
        exact_mod_cast h1
    · rw [if_neg hs]
      simp only [true_iff]
      have hs' : (s : ℝ) < 0 := by
        have hh : ¬ (0 : ℝ) ≤ (s : ℝ) := by exact_mod_cast hs
        linarith
      have hdd : (0 : ℝ) ≤ (dotQ a b : ℝ) /
          (Real.sqrt (sqNormQ a : ℝ) * Real.sqrt (sqNormQ b : ℝ)) :=
        div_nonneg hd' (le_of_lt hN)
      linarith
  · rw [if_neg hd]
    have hd' : (dotQ a b : ℝ) < 0 := by
      have hh : ¬ (0 : ℝ) ≤ (dotQ a b : ℝ) := by exact_mod_cast hd
      linarith
    by_cases hs : 0 ≤ s
    · rw [if_pos hs]
      simp only [Bool.false_eq_true, false_iff, not_lt]
      have hs' : (0 : ℝ) ≤ (s : ℝ) := by exact_mod_cast hs
      have hneg : (dotQ a b : ℝ) /
          (Real.sqrt (sqNormQ a : ℝ) * Real.sqrt (sqNormQ b : ℝ)) < 0 :=
        div_neg_of_neg_of_pos hd' hN
      linarith
    · rw [if_neg hs]
      have hs' : (s : ℝ) < 0 := by
        have hh : ¬ (0 : ℝ) ≤ (s : ℝ) := by exact_mod_cast hs
        linarith
      rw [decide_eq_true_eq, hdiv]
      have hsN : (s : ℝ) * (Real.sqrt (sqNormQ a : ℝ) * Real.sqrt (sqNormQ b : ℝ)) < 0 :=
        mul_neg_of_neg_of_pos hs' hN
      constructor
      · intro hlt
        have hlt' : ((dotQ a b : ℝ)) * ((dotQ a b : ℝ)) <
            ((s : ℝ)) * ((s : ℝ)) * (((sqNormQ a : ℝ)) * ((sqNormQ b : ℝ))) := by
          exact_mod_cast hlt
        nlinarith [hNsq, hd', hsN, hlt']
      · intro hlt
        have h1 : (dotQ a b : ℝ) * (dotQ a b : ℝ) <
            (s : ℝ) * (s : ℝ) * ((sqNormQ a : ℝ) * (sqNormQ b : ℝ)) := by
          nlinarith [hNsq, hd', hsN, hlt]
        exact_mod_cast h1

/-- C3: deduplication on insert for a single-document `add_documents`
call with a fresh id, as the default `ids=None` UUID path supplies.  If
the code's cosine comparison of the document's embedding against the
recomputed embedding of one of its 2 nearest neighbours exceeds the
threshold `s`, the document is silently skipped: no error, empty
returned list, state (hence store size) unchanged.  Otherwise it is
inserted: the returned list is exactly the document, the docstore gains
one entry (size + 1), the mapping gains the next slot, and the index
gains its vector. -/
theorem add_documents_dedup (embedText : String → List ℚ) (st : VSState)
    (doc : Document) (did : String) (s : ℚ) (similar : List (Document × ℚ))
    (hsearch :
      similarity_search_with_score_by_vector st (embedText doc.page_content) 2 none 20 none =
        (.ok similar, st))
    (hfresh : dictLookup st.docstore did = none) :
    (similar.any
        (fun p => cosineSimGT (embedText doc.page_content) (embedText p.1.page_content) s) = true →
      add_documents embedText st [doc] [did] s = (.ok [], st)) ∧
    (similar.any
        (fun p => cosineSimGT (embedText doc.page_content) (embedText p.1.page_content) s) = false →
      add_documents embedText st [doc] [did] s =
        (.ok [doc],
          ⟨st.docstore ++ [(did, doc)],
           st.index_to_docstore_id ++ [(st.index_to_docstore_id.length, did)],
           st.vectors ++ [embedText doc.page_content]⟩) ∧
      (st.docstore ++ [(did, doc)]).length = st.docstore.length + 1) := by
  have hins := dictInsert_fresh ((dictLookup_eq_none_iff st.docstore did).mp hfresh) doc
  constructor
  · intro hdup
    unfold add_documents
    rw [if_neg (by simp)]
    show addLoop embedText s [(doc, embedText doc.page_content, did)] st [] = _
    unfold addLoop
    rw [hsearch]
    dsimp only
    rw [if_pos hdup]
    rfl
  · intro hdup
    refine ⟨?_, by simp⟩
    unfold add_documents
    rw [if_neg (by simp)]
    show addLoop embedText s [(doc, embedText doc.page_content, did)] st [] = _
    unfold addLoop
    rw [hsearch]
    dsimp only
    rw [if_neg (by rw [hdup]; exact Bool.false_ne_true)]
    show (Except.ok [doc],
      ({ docstore := dictInsert st.docstore did doc,
         index_to_docstore_id :=
           st.index_to_docstore_id ++ [(st.index_to_docstore_id.length, did)],
         vectors := st.vectors ++ [embedText doc.page_content] } : VSState)) = _
    rw [hins]

theorem add_documents_dedup_witness :
    add_documents embedW stW3 [docX2] ["b"] (9 / 10) = (.ok [], stW3) := by
  have hsearch : similarity_search_with_score_by_vector stW3 (embedW docX2.page_content)
      2 none 20 none = (.ok [(docX, 0)], stW3) := by
    norm_num [similarity_search_with_score_by_vector, indexSearch, sqDist, simSearchLoop,
      dictLookup, stW3, embedW, docX2, List.insertionSort, List.orderedInsert,
      List.replicate, Except.bind]
  have h := (add_documents_dedup embedW stW3 docX2 "b" (9 / 10) [(docX, 0)] hsearch rfl).1
  apply h
  norm_num [cosineSimGT, dotQ, sqNormQ, embedW, docX]

/-! Score-threshold filtering (C6). -/

lemma simSearch_threshold_le (st : VSState) (e : List ℚ) (k : Nat)
    (f : Option (List (List String))) (fk : Nat) (t : ℚ)
    (L : List (Document × ℚ)) (st1 : VSState)
    (h : similarity_search_with_score_by_vector st e k f fk (some t) = (.ok L, st1)) :
    ∀ p ∈ L, p.2 ≤ t := by
  simp only [similarity_search_with_score_by_vector] at h
  rcases hloop : simSearchLoop st f (indexSearch st.vectors e (if f.isNone then k else fk)) with
    e' | docs
  · rw [hloop] at h
    simp at h
  · rw [hloop] at h
    simp only [Prod.mk.injEq, Except.ok.injEq] at h
    intro p hp
    rw [← h.1] at hp
    have hp' := List.mem_of_mem_take hp
    have := List.mem_filter.mp hp'
    exact of_decide_eq_true this.2

/-- C6 amended: `similarity_search_with_score_by_vector` keeps only
candidates whose distance is ≤ the threshold it is given, but `search`
passes `score_threshold + 0.01` down (the `threshold_offset`), so every
document returned by `search` with threshold `s` comes from a candidate
pair whose search distance is ≤ `s + 1/100` — not necessarily ≤ `s`. -/
theorem score_threshold_amended :
    (∀ (st : VSState) (e : List ℚ) (k : Nat) (f : Option (List (List String)))
        (fk : Nat) (t : ℚ) (L : List (Document × ℚ)) (st1 : VSState),
        similarity_search_with_score_by_vector st e k f fk (some t) = (.ok L, st1) →
        ∀ p ∈ L, p.2 ≤ t) ∧
    (∀ (embedText : String → List ℚ) (st : VSState) (q : String) (k : Nat)
        (fil : Option Metadata) (fk : Nat) (pw : Bool) (s : ℚ) (now : ℚ)
        (docs : List Document) (st1 : VSState),
        search embedText st q k fil fk pw (some s) now = (.ok docs, st1) →
        ∀ d ∈ docs, ∃ (fexp : Option (List (List String))) (L : List (Document × ℚ)),
          (match fil with
            | some md => to_filter pw md.tags
            | none => .ok none) = .ok fexp ∧
          similarity_search_with_score_by_vector st (embedText q) k fexp fk
            (some (s + 1 / 100)) = (.ok L, st) ∧
          ∃ sc, (d, sc) ∈ L ∧ sc ≤ s + 1 / 100) := by
  refine ⟨simSearch_threshold_le, ?_⟩
  intro embedText st q k fil fk pw s now docs st1 h d hd
  unfold search at h
  rcases hft : (match fil with
    | some md => to_filter pw md.tags
    | none => Except.ok none) with e' | fexp
  · rw [hft] at h
    simp at h
  · rw [hft] at h
    dsimp only at h
    simp only [Option.map_some'] at h
    rcases hss : similarity_search_with_score_by_vector st (embedText q) k fexp fk
      (some (s + 1 / 100)) with ⟨res, st2⟩
    have hsnd := simSearch_snd st (embedText q) k fexp fk (some (s + 1 / 100))
    rw [hss] at hsnd
    dsimp at hsnd
    rcases res with e'' | das
    · rw [hss] at h
      simp at h
    · rw [hss] at h
      simp only [Prod.mk.injEq, Except.ok.injEq] at h
      rw [hsnd] at hss
      refine ⟨fexp, das, hft, hss, ?_⟩
      rw [← h.1] at hd
      have hd' := List.mem_of_mem_take hd
      obtain ⟨p, hpmem, hpd⟩ := List.mem_map.mp hd'
      have hpf := List.mem_filter.mp hpmem
      refine ⟨p.2, ?_, ?_⟩
      · rw [← hpd]
        simpa using hpf.1
      · exact simSearch_threshold_le st (embedText q) k fexp fk (s + 1 / 100) das st hss p hpf.1

/-- C6 counterexample: with `score_threshold = 0.995`, `search` still
returns the document whose search distance is `1 > 0.995`, because the
implementation filters against `0.995 + 0.01`. -/
theorem search_score_threshold_cx :
    search embedC6 stC6 "q" 5 none 20 true (some (995 / 1000)) 0 = (.ok [docD], stC6) ∧
    sqDist (embedC6 "q") [1] = 1 ∧
    ¬ ((1 : ℚ) ≤ 995 / 1000) := by
  refine ⟨?_, by norm_num [sqDist, embedC6], by norm_num⟩
  norm_num [search, similarity_search_with_score_by_vector, indexSearch, sqDist,
    simSearchLoop, dictLookup, stC6, embedC6, docD, List.insertionSort,
    List.orderedInsert, List.replicate, Except.bind, Document.is_valid]

theorem score_threshold_witness :
    ((docD, (1 : ℚ)).2 ≤ 2) := by
  have hss : similarity_search_with_score_by_vector stC6 [0] 5 none 20 (some 2) =
      (.ok [(docD, 1)], stC6) := by
    norm_num [similarity_search_with_score_by_vector, indexSearch, sqDist, simSearchLoop,
      dictLookup, stC6, docD, List.insertionSort, List.orderedInsert, List.replicate,
      Except.bind]
  exact score_threshold_amended.1 stC6 [0] 5 none 20 2 [(docD, 1)] stC6 hss (docD, 1)
    (by simp)

/-! Save crash safety (C4). -/

/-- C4 amended: after any save operation no backup files remain, and when
the save fails — at the rebuild step or at either write, i.e. after the
backup copies were made — every file that existed before the save still
has its pre-save content.  (A file that did not exist pre-save has no
backup, so a failed write can leave it behind partially written: see the
counterexample.) -/
theorem save_crash_safety_amended (embedText : String → List ℚ) (st : VSState)
    (d : Disk) (fault : Option SaveStep) (res : Except PyErr Unit)
    (st1 : VSState) (d1 : Disk)
    (h : perform_save_operation embedText st d fault = (res, st1, d1)) :
    d1.bak_faiss = none ∧ d1.bak_pkl = none ∧
    ∀ e, res = .error e →
      (∀ c, d.faiss = some c → d1.faiss = some c) ∧
      (∀ c, d.pkl = some c → d1.pkl = some c) := by
  simp only [perform_save_operation] at h
  split at h
  · simp only [Prod.mk.injEq] at h
    obtain ⟨hres, -, hd⟩ := h
    subst hd
    refine ⟨rfl, rfl, fun e he => ⟨fun c hc => ?_, fun c hc => ?_⟩⟩
    · simp [restoreAndClean, hc]
    · simp [restoreAndClean, hc]
  · split at h
    · simp only [Prod.mk.injEq] at h
      obtain ⟨hres, -, hd⟩ := h
      subst hd
      refine ⟨rfl, rfl, fun e he => ⟨fun c hc => ?_, fun c hc => ?_⟩⟩
      · simp [restoreAndClean, hc]
      · simp [restoreAndClean, hc]
    · split at h
      · simp only [Prod.mk.injEq] at h
        obtain ⟨hres, -, hd⟩ := h
        subst hd
        refine ⟨rfl, rfl, fun e he => ⟨fun c hc => ?_, fun c hc => ?_⟩⟩
        · simp [restoreAndClean, hc]
        · simp [restoreAndClean, hc]
      · split at h
        · simp only [Prod.mk.injEq] at h
          obtain ⟨hres, -, hd⟩ := h
          subst hd
          refine ⟨rfl, rfl, fun e he => ⟨fun c hc => ?_, fun c hc => ?_⟩⟩
          · simp [restoreAndClean, hc]
          · simp [restoreAndClean, hc]
        · simp only [Prod.mk.injEq] at h
          obtain ⟨hres, -, hd⟩ := h
          subst hd
          refine ⟨rfl, rfl, fun e he => ?_⟩
          rw [← hres] at he
          exact Except.noConfusion he

/-- C4 counterexample: a save onto an empty disk (no pre-save files, so
no backups) that fails while writing the index file leaves a partially
written index file behind, so the disk does not have its pre-save
contents afterwards (the pre-save index file was absent). -/
theorem save_crash_safety_cx :
    (perform_save_operation embedW stBig ⟨none, none, none, none⟩ (some .writeFaiss)).2.2 =
      ⟨some .corrupt, none, none, none⟩ ∧
    (perform_save_operation embedW stBig ⟨none, none, none, none⟩ (some .writeFaiss)).1 =
      .error .valueError ∧
    (⟨none, none, none, none⟩ : Disk).faiss = none := by
  exact ⟨rfl, rfl, rfl⟩

theorem save_crash_safety_witness :
    dW4.faiss = some (.faissData []) ∧ dW4.pkl = some (.pklData [] []) ∧
    dW4.bak_faiss = none ∧ dW4.bak_pkl = none := by
  have h := save_crash_safety_amended embedW emptyState dW4 none (.error .valueError)
    emptyState dW4 rfl
  exact ⟨(h.2.2 .valueError rfl).1 (.faissData []) rfl,
    (h.2.2 .valueError rfl).2 (.pklData [] []) rfl, h.1, h.2.1⟩

/-! Structural consistency invariant (C1). -/

lemma map_snd_zip_take {α β : Type} :
    ∀ (l₁ : List α) (l₂ : List β), (l₁.zip l₂).map Prod.snd = l₂.take l₁.length
  | [], _ => by simp
  | _ :: _, [] => by simp
  | a :: l₁, b :: l₂ => by
    rw [List.zip_cons_cons, List.map_cons, map_snd_zip_take l₁ l₂]
    rfl

lemma map_filter_key {κ ν : Type} (q : κ → Bool) :
    ∀ l : List (κ × ν),
      (l.filter (fun p => q p.1)).map Prod.fst = (l.map Prod.fst).filter q
  | [] => rfl
  | a :: l => by
    rw [List.filter_cons, List.map_cons, List.filter_cons]
    by_cases ha : q a.1 = true
    · rw [if_pos ha, if_pos ha, List.map_cons, map_filter_key q l]
    · rw [if_neg ha, if_neg ha, map_filter_key q l]

lemma addLoop_inv (embedText : String → List ℚ) (s : ℚ) :
    ∀ (triples : List (Document × List ℚ × String)) (st : VSState) (added ret : List Document)
      (st1 : VSState),
      Inv st →
      (triples.map (fun tr => tr.2.2)).Nodup →
      (∀ i ∈ triples.map (fun tr => tr.2.2), dictLookup st.docstore i = none) →
      addLoop embedText s triples st added = (.ok ret, st1) →
      Inv st1
  | [], st, added, ret, st1, hinv, _, _, h => by
    unfold addLoop at h
    simp only [Prod.mk.injEq] at h
    rw [← h.2]
    exact hinv
  | (doc, embed, did) :: rest, st, added, ret, st1, hinv, hnodup, hfresh, h => by
    unfold addLoop at h
    rcases hss : similarity_search_with_score_by_vector st embed 2 none 20 none with ⟨res, st2⟩
    have hsnd := simSearch_snd st embed 2 none 20 none
    rw [hss] at hsnd h
    dsimp at hsnd
    rw [hsnd] at h
    rw [List.map_cons, List.nodup_cons] at hnodup
    rcases res with e | similar
    · simp at h
    · dsimp only at h
      by_cases hdup :
          (similar.any fun p => cosineSimGT embed (embedText p.1.page_content) s) = true
      · rw [if_pos hdup] at h
        exact addLoop_inv embedText s rest st added ret st1 hinv hnodup.2
          (fun i hi => hfresh i (by simp [hi])) h
      · rw [if_neg hdup] at h
        have hfresh0 : dictLookup st.docstore did = none := hfresh did (by simp)
        have hnotmem := (dictLookup_eq_none_iff st.docstore did).mp hfresh0
        rw [dictInsert_fresh hnotmem doc] at h
        refine addLoop_inv embedText s rest _ _ ret st1 ?_ hnodup.2 ?_ h
        · obtain ⟨h1, h2, h3⟩ := hinv
          refine ⟨?_, ?_, ?_⟩
          · show st.index_to_docstore_id ++ [(st.index_to_docstore_id.length, did)] =
              ((st.docstore ++ [(did, doc)]).map Prod.fst).enum
            have hmap : (st.docstore ++ [(did, doc)]).map Prod.fst =
                st.docstore.map Prod.fst ++ [did] := by simp
            rw [hmap, enum_append_singleton, ← h1]
            have hlen : st.index_to_docstore_id.length = (st.docstore.map Prod.fst).length := by
              rw [h1, List.enum_length]
            rw [hlen]
          · show ((st.docstore ++ [(did, doc)]).map Prod.fst).Nodup
            rw [List.map_append]
            simp [List.nodup_append, h2, hnotmem]
          · show (st.vectors ++ [embed]).length = (st.docstore ++ [(did, doc)]).length
            simp [h3]
        · intro i hi
          show dictLookup (st.docstore ++ [(did, doc)]) i = none
          rw [dictLookup_eq_none_iff, List.map_append]
          have hi1 : dictLookup st.docstore i = none := hfresh i (by simp [hi])
          have hi2 := (dictLookup_eq_none_iff st.docstore i).mp hi1
          have hi3 : i ≠ did := by
            intro he
            exact hnodup.1 (he ▸ hi)
          simp [hi2, hi3]

lemma delLoop_ok_char :
    ∀ (pairs : List (Nat × String)) (st st1 : VSState),
      (st.docstore.map Prod.fst).Nodup →
      (st.index_to_docstore_id.map Prod.fst).Nodup →
      (pairs.map Prod.snd).Nodup →
      (pairs.map Prod.fst).Nodup →
      delLoop pairs st = (.ok (), st1) →
      st1.vectors = st.vectors ∧
      st1.docstore = st.docstore.filter (fun p => decide (p.1 ∉ pairs.map Prod.snd)) ∧
      st1.index_to_docstore_id =
        st.index_to_docstore_id.filter (fun p => decide (p.1 ∉ pairs.map Prod.fst)) ∧
      ∀ x ∈ pairs.map Prod.snd, x ∈ st.docstore.map Prod.fst
  | [], st, st1, _, _, _, _, h => by
    unfold delLoop at h
    simp only [Prod.mk.injEq] at h
    rw [← h.2]
    refine ⟨rfl, ?_, ?_, by simp⟩
    · symm
      rw [List.filter_eq_self]
      intro p _
      simp
    · symm
      rw [List.filter_eq_self]
      intro p _
      simp
  | (iid, did) :: rest, st, st1, hds, hmap, hsnd, hfst, h => by
    unfold delLoop at h
    rw [List.map_cons, List.nodup_cons] at hsnd hfst
    by_cases h1 : (dictLookup st.docstore did).isSome = true
    swap
    · rw [if_neg h1] at h
      simp at h
    rw [if_pos h1] at h
    by_cases h2 : (dictLookup st.index_to_docstore_id iid).isSome = true
    swap
    · rw [if_neg h2] at h
      simp at h
    rw [if_pos h2] at h
    have hds' : ((dictErase st.docstore did).map Prod.fst).Nodup :=
      (List.Sublist.map Prod.fst (List.eraseP_sublist _)).nodup hds
    have hmap' : ((dictErase st.index_to_docstore_id iid).map Prod.fst).Nodup :=
      (List.Sublist.map Prod.fst (List.eraseP_sublist _)).nodup hmap
    obtain ⟨hv, hd, hm, hpres⟩ :=
      delLoop_ok_char rest
        { st with docstore := dictErase st.docstore did,
                  index_to_docstore_id := dictErase st.index_to_docstore_id iid }
        st1 hds' hmap' hsnd.2 hfst.2 h
    refine ⟨hv, ?_, ?_, ?_⟩
    · rw [hd]
      show (dictErase st.docstore did).filter _ = _
      rw [dictErase_of_nodup hds did, List.filter_filter]
      apply List.filter_congr
      intro p _
      by_cases hA : p.1 = did <;> by_cases hB : p.1 ∈ rest.map Prod.snd <;>
        simp [hA, hB]
    · rw [hm]
      show (dictErase st.index_to_docstore_id iid).filter _ = _
      rw [dictErase_of_nodup hmap iid, List.filter_filter]
      apply List.filter_congr
      intro p _
      by_cases hA : p.1 = iid <;> by_cases hB : p.1 ∈ rest.map Prod.fst <;>
        simp [hA, hB]
    · intro x hx
      rcases List.mem_cons.mp hx with rfl | hx'
      · exact (dictLookup_isSome_iff st.docstore x).mp h1
      · have hx2 := hpres x hx'
        show x ∈ st.docstore.map Prod.fst
        exact (List.Sublist.map Prod.fst (List.eraseP_sublist _)).mem hx2

lemma enum_filter_snd {α : Type} (p : α → Bool) (l : List α) :
    ((l.enum).filter (fun q => p q.2)).map Prod.snd = l.filter p :=
  enumFrom_filter_snd p 0 l

lemma remove_inv (st : VSState) (tgt : Option (List String)) (res : RemoveResult)
    (stf : VSState) (hinv : Inv st)
    (h : remove_documents_by_id st tgt = (.ok res, stf)) : Inv stf := by
  obtain ⟨h1, h2, h3⟩ := hinv
  rcases tgt with _ | t
  · simp only [remove_documents_by_id, Prod.mk.injEq] at h
    rw [← h.2]
    exact ⟨rfl, List.nodup_nil, rfl⟩
  · simp only [remove_documents_by_id] at h
    by_cases hnd : t.Nodup
    swap
    · rw [if_pos hnd] at h
      simp at h
    rw [if_neg (not_not_intro hnd)] at h
    split at h
    · simp at h
    · rename_i u st2 heq
      simp only [Prod.mk.injEq, Except.ok.injEq] at h
      obtain ⟨-, hstf⟩ := h
      rw [← hstf]
      -- Facts about the slot list.
      have hmapfst : st.index_to_docstore_id.map Prod.fst =
          List.range (st.docstore.map Prod.fst).length := by
        rw [h1, List.enum_map_fst]
      have hmapnodup : (st.index_to_docstore_id.map Prod.fst).Nodup := by
        rw [hmapfst]
        exact List.nodup_range _
      have hiidsub :
          (((st.index_to_docstore_id.filter (fun p => t.contains p.2)).map Prod.fst)).Sublist
            (st.index_to_docstore_id.map Prod.fst) :=
        (List.filter_sublist _).map _
      have hiidnodup :
          ((st.index_to_docstore_id.filter (fun p => t.contains p.2)).map Prod.fst).Nodup :=
        hiidsub.nodup hmapnodup
      have hFsnd :
          (st.index_to_docstore_id.filter (fun p => t.contains p.2)).map Prod.snd =
            (st.docstore.map Prod.fst).filter (fun s => t.contains s) := by
        rw [h1]
        exact enum_filter_snd (fun s => t.contains s) (st.docstore.map Prod.fst)
      have hFsndnodup :
          ((st.index_to_docstore_id.filter (fun p => t.contains p.2)).map Prod.snd).Nodup := by
        rw [hFsnd]
        exact h2.filter _
      have hFlen :
          ((st.index_to_docstore_id.filter (fun p => t.contains p.2)).map Prod.fst).length =
            ((st.docstore.map Prod.fst).filter (fun s => t.contains s)).length := by
        have := congrArg List.length hFsnd
        simpa using this
      have hsubt : ∀ x ∈ (st.index_to_docstore_id.filter (fun p => t.contains p.2)).map Prod.snd,
          x ∈ t := by
        intro x hx
        rw [hFsnd] at hx
        exact List.elem_iff.mp (List.mem_filter.mp hx).2
      have hlen3 :
          ((st.index_to_docstore_id.filter (fun p => t.contains p.2)).map Prod.fst).length ≤
            t.length := by
        have hle := nodup_length_le_of_subset hFsndnodup hsubt
        simpa using hle
      have hpfst :
          ((((st.index_to_docstore_id.filter (fun p => t.contains p.2)).map Prod.fst).zip t).map
            Prod.fst) =
            (st.index_to_docstore_id.filter (fun p => t.contains p.2)).map Prod.fst :=
        List.map_fst_zip _ _ hlen3
      have hpsnd :
          ((((st.index_to_docstore_id.filter (fun p => t.contains p.2)).map Prod.fst).zip t).map
            Prod.snd) =
            t.take ((st.index_to_docstore_id.filter (fun p => t.contains p.2)).map Prod.fst).length :=
        map_snd_zip_take _ _
      obtain ⟨hv, hd, hm, hpres⟩ := delLoop_ok_char
        (((st.index_to_docstore_id.filter (fun p => t.contains p.2)).map Prod.fst).zip t)
        { st with vectors := (removeIdsFromVectors st.vectors
            ((st.index_to_docstore_id.filter (fun p => t.contains p.2)).map Prod.fst)) }
        st2 h2 hmapnodup
        (by rw [hpsnd]; exact (List.take_sublist _ _).nodup hnd)
        (by rw [hpfst]; exact hiidnodup) heq
      rw [hpsnd] at hd hpres
      rw [hpfst] at hm
      -- Abbreviate the present targets.
      have hDnodup := (List.take_sublist
        ((st.index_to_docstore_id.filter (fun p => t.contains p.2)).map Prod.fst).length t).nodup hnd
      have hDsubt := (List.take_sublist
        ((st.index_to_docstore_id.filter (fun p => t.contains p.2)).map Prod.fst).length t).subset
      have hDlen : (t.take
          ((st.index_to_docstore_id.filter (fun p => t.contains p.2)).map Prod.fst).length).length =
          ((st.index_to_docstore_id.filter (fun p => t.contains p.2)).map Prod.fst).length := by
        rw [List.length_take]
        exact min_eq_left hlen3
      have hP'nodup : ((st.docstore.map Prod.fst).filter (fun s => t.contains s)).Nodup :=
        h2.filter _
      have hDsubP' : ∀ x ∈ t.take
          ((st.index_to_docstore_id.filter (fun p => t.contains p.2)).map Prod.fst).length,
          x ∈ (st.docstore.map Prod.fst).filter (fun s => t.contains s) := by
        intro x hx
        exact List.mem_filter.mpr ⟨hpres x hx, List.elem_iff.mpr (hDsubt hx)⟩
      have hP'subD : ∀ x ∈ (st.docstore.map Prod.fst).filter (fun s => t.contains s),
          x ∈ t.take
            ((st.index_to_docstore_id.filter (fun p => t.contains p.2)).map Prod.fst).length := by
        apply mem_of_subset_of_length_ge hDnodup hP'nodup hDsubP'
        rw [hDlen, ← hFlen]
      -- The two filtered key lists coincide.
      have hkeyeq : (st.docstore.filter (fun p => decide (p.1 ∉ t.take
            ((st.index_to_docstore_id.filter (fun p => t.contains p.2)).map Prod.fst).length))).map
            Prod.fst =
          (st.docstore.map Prod.fst).filter (fun s => !(t.contains s)) := by
        rw [map_filter_key (fun k => decide (k ∉ t.take
          ((st.index_to_docstore_id.filter (fun p => t.contains p.2)).map Prod.fst).length))
          st.docstore]
        apply List.filter_congr
        intro k hk
        by_cases hk1 : k ∈ t.take
            ((st.index_to_docstore_id.filter (fun p => t.contains p.2)).map Prod.fst).length
        · have hkt : k ∈ t := hDsubt hk1
          have ha : decide (k ∉ t.take
              ((st.index_to_docstore_id.filter (fun p => t.contains p.2)).map
                Prod.fst).length) = false := decide_eq_false (not_not_intro hk1)
          have hb : t.contains k = true := List.elem_iff.mpr hkt
          rw [ha, hb]
          rfl
        · by_cases hk2 : k ∈ t
          · exact absurd (hP'subD k (List.mem_filter.mpr ⟨hk, List.elem_iff.mpr hk2⟩)) hk1
          · have ha : decide (k ∉ t.take
                ((st.index_to_docstore_id.filter (fun p => t.contains p.2)).map
                  Prod.fst).length) = true := decide_eq_true hk1
            have hb : t.contains k = false := by
              by_contra hc
              rw [Bool.not_eq_false] at hc
              exact hk2 (List.elem_iff.mp hc)
            rw [ha, hb]
            rfl
      -- The filtered mapping, by slots, equals the mapping filtered by target values.
      have hmeq : st.index_to_docstore_id.filter (fun p => decide (p.1 ∉
            (st.index_to_docstore_id.filter (fun p => t.contains p.2)).map Prod.fst)) =
          st.index_to_docstore_id.filter (fun p => !(t.contains p.2)) := by
        apply List.filter_congr
        intro p hp
        by_cases hin : p.1 ∈ (st.index_to_docstore_id.filter (fun p => t.contains p.2)).map Prod.fst
        · obtain ⟨r, hr, hre⟩ := List.mem_map.mp hin
          have hrmem := (List.filter_sublist _).subset hr
          have hpr : r = p := eq_of_mem_of_map_fst_nodup hmapnodup hrmem hp hre
          have hrc0 := List.of_mem_filter hr
          have hrc : t.contains r.2 = true := hrc0
          rw [hpr] at hrc
          have ha : decide (p.1 ∉ (st.index_to_docstore_id.filter
              (fun p => t.contains p.2)).map Prod.fst) = false :=
            decide_eq_false (not_not_intro hin)
          rw [ha, hrc]
          rfl
        · have hnc : t.contains p.2 = false := by
            by_contra hc
            rw [Bool.not_eq_false] at hc
            exact hin (List.mem_map_of_mem Prod.fst (List.mem_filter.mpr ⟨hp, hc⟩))
          have ha : decide (p.1 ∉ (st.index_to_docstore_id.filter
              (fun p => t.contains p.2)).map Prod.fst) = true := decide_eq_true hin
          rw [ha, hnc]
          rfl
      -- Assemble the invariant for the final state.
      have hsndfinal : st2.index_to_docstore_id.map Prod.snd =
          (st.docstore.map Prod.fst).filter (fun s => !(t.contains s)) := by
        rw [hm, hmeq, h1]
        exact enum_filter_snd (fun s => !(t.contains s)) (st.docstore.map Prod.fst)
      have hdocfinal : st2.docstore.map Prod.fst =
          (st.docstore.map Prod.fst).filter (fun s => !(t.contains s)) := by
        rw [hd]
        exact hkeyeq
      refine ⟨?_, ?_, ?_⟩
      · show (st2.index_to_docstore_id.map Prod.snd).enum = (st2.docstore.map Prod.fst).enum
        rw [hsndfinal, hdocfinal]
      · show (st2.docstore.map Prod.fst).Nodup
        rw [hdocfinal]
        exact h2.filter _
      · show st2.vectors.length = st2.docstore.length
        -- Length of the compacted index.
        have hvlen : st2.vectors.length =
            ((st.vectors.enum.filter (fun p =>
              !((st.index_to_docstore_id.filter (fun p => t.contains p.2)).map
                  Prod.fst).contains p.1)).map Prod.snd).length := by
          rw [hv]
          rfl
        have hsplitv := List.length_eq_length_filter_add
          (l := st.vectors.enum)
          (fun q => ((st.index_to_docstore_id.filter (fun p => t.contains p.2)).map
            Prod.fst).contains q.1)
        -- The slots hit by the removal are exactly the slot list.
        have hhit : ((st.vectors.enum.filter (fun q =>
            ((st.index_to_docstore_id.filter (fun p => t.contains p.2)).map
              Prod.fst).contains q.1)).map Prod.fst) =
            (List.range st.vectors.length).filter (fun i =>
              ((st.index_to_docstore_id.filter (fun p => t.contains p.2)).map
                Prod.fst).contains i) := by
          rw [map_filter_key (fun i =>
            ((st.index_to_docstore_id.filter (fun p => t.contains p.2)).map
              Prod.fst).contains i) st.vectors.enum, List.enum_map_fst]
        have hRnodup : ((List.range st.vectors.length).filter (fun i =>
            ((st.index_to_docstore_id.filter (fun p => t.contains p.2)).map
              Prod.fst).contains i)).Nodup :=
          (List.nodup_range _).filter _
        have hRsub : ∀ x ∈ (List.range st.vectors.length).filter (fun i =>
            ((st.index_to_docstore_id.filter (fun p => t.contains p.2)).map
              Prod.fst).contains i),
            x ∈ (st.index_to_docstore_id.filter (fun p => t.contains p.2)).map Prod.fst := by
          intro x hx
          have hx' := List.of_mem_filter hx
          exact List.elem_iff.mp hx'
        have hsubR : ∀ x ∈ (st.index_to_docstore_id.filter (fun p => t.contains p.2)).map Prod.fst,
            x ∈ (List.range st.vectors.length).filter (fun i =>
              ((st.index_to_docstore_id.filter (fun p => t.contains p.2)).map
                Prod.fst).contains i) := by
          intro x hx
          have hx1 : x ∈ st.index_to_docstore_id.map Prod.fst := hiidsub.subset hx
          rw [hmapfst] at hx1
          have hx2 : x ∈ List.range st.vectors.length := by
            rw [List.length_map] at hx1
            rw [h3]
            exact hx1
          exact List.mem_filter.mpr ⟨hx2, List.elem_iff.mpr hx⟩
        have hRlen : ((List.range st.vectors.length).filter (fun i =>
            ((st.index_to_docstore_id.filter (fun p => t.contains p.2)).map
              Prod.fst).contains i)).length =
            ((st.index_to_docstore_id.filter (fun p => t.contains p.2)).map Prod.fst).length :=
          le_antisymm (nodup_length_le_of_subset hRnodup hRsub)
            (nodup_length_le_of_subset hiidnodup hsubR)
        have hhitlen : ((st.vectors.enum.filter (fun q =>
            ((st.index_to_docstore_id.filter (fun p => t.contains p.2)).map
              Prod.fst).contains q.1)).length) =
            ((st.index_to_docstore_id.filter (fun p => t.contains p.2)).map Prod.fst).length := by
          have := congrArg List.length hhit
          simpa using this.trans hRlen
        -- Length of the filtered docstore.
        have hsplitk := List.length_eq_length_filter_add
          (l := st.docstore.map Prod.fst) (fun s => t.contains s)
        have hdoclen : st2.docstore.length =
            ((st.docstore.map Prod.fst).filter (fun s => !(t.contains s))).length := by
          have := congrArg List.length hdocfinal
          simpa using this
        have henumlen : st.vectors.enum.length = st.vectors.length := List.enum_length
        have hvl2 : st2.vectors.length = (st.vectors.enum.filter (fun q =>
            !((st.index_to_docstore_id.filter (fun p => t.contains p.2)).map
              Prod.fst).contains q.1)).length := by
          rw [hvlen]
          simp
        have hkeyslen : (st.docstore.map Prod.fst).length = st.docstore.length :=
          List.length_map _ _
        omega

lemma rebuild_inv (embedText : String → List ℚ) (st stf : VSState)
    (hinv : Inv st) (h : rebuild_index embedText st = (.ok (), stf)) : Inv stf := by
  unfold rebuild_index at h
  by_cases hc : st.docstore.length / 12 = 0
  · rw [if_pos hc] at h
    simp at h
  · rw [if_neg hc] at h
    simp only [Prod.mk.injEq] at h
    rw [← h.2]
    refine ⟨rfl, hinv.2.1, ?_⟩
    show (st.docstore.map _).length = st.docstore.length
    exact List.length_map _ _

lemma zip3_snd_snd {α β γ : Type} (f : α → β) :
    ∀ (docs : List α) (ids : List γ), ids.length = docs.length →
      (docs.zip ((docs.map f).zip ids)).map (fun tr => tr.2.2) = ids
  | [], [], _ => rfl
  | [], _ :: _, h => by simp at h
  | _ :: _, [], h => by simp at h
  | a :: docs, i :: ids, h => by
    simp only [List.map_cons, List.zip_cons_cons]
    rw [zip3_snd_snd f docs ids (by simpa using h)]

lemma add_inv (embedText : String → List ℚ) (st : VSState) (docs : List Document)
    (ids : List String) (s : ℚ) (ret : List Document) (st1 : VSState)
    (hfresh : idsFresh st ids) (hinv : Inv st)
    (hadd : add_documents embedText st docs ids s = (.ok ret, st1)) : Inv st1 := by
  unfold add_documents at hadd
  by_cases hlen : ids.length ≠ docs.length
  · rw [if_pos hlen] at hadd
    simp at hadd
  · rw [if_neg hlen] at hadd
    push_neg at hlen
    have hz := zip3_snd_snd (fun d => embedText d.page_content) docs ids hlen
    exact addLoop_inv embedText s _ _ [] ret st1 hinv (by rw [hz]; exact hfresh.1)
      (by rw [hz]; exact hfresh.2) hadd

lemma reachable_inv (embedText : String → List ℚ) (st : VSState)
    (h : VReachable embedText st) : Inv st := by
  induction h with
  | init => exact ⟨rfl, List.nodup_nil, rfl⟩
  | step hr hs ih =>
    cases hs with
    | add hfresh hadd => exact add_inv _ _ _ _ _ _ _ hfresh ih hadd
    | remove hrem => exact remove_inv _ _ _ _ ih hrem
    | rebuild hreb => exact rebuild_inv _ _ _ ih hreb

/-- C1 amended: for every sequence of completed
`add_documents` / `remove_documents_by_id` / `rebuild_index` operations
starting from the empty store, *provided every `add_documents` call uses
ids that are pairwise distinct and not already present in the docstore*
(which the default freshly generated UUID ids are), afterwards
`|docstore| = |index_to_docstore_id| = index.ntotal` and the mapping's
key list is exactly `0..N-1` in order (so its key set is exactly
`{0,...,N-1}`, contiguous, no gaps or duplicates).  Without the
freshness proviso the claim fails: see the counterexample. -/
theorem invariant_structural_amended (embedText : String → List ℚ) (st : VSState)
    (h : VReachable embedText st) :
    st.docstore.length = st.index_to_docstore_id.length ∧
    st.index_to_docstore_id.length = st.vectors.length ∧
    st.index_to_docstore_id.map Prod.fst = List.range st.index_to_docstore_id.length := by
  obtain ⟨h1, h2, h3⟩ := reachable_inv embedText st h
  have hlen : st.index_to_docstore_id.length = st.docstore.length := by
    rw [h1, List.enum_length, List.length_map]
  refine ⟨hlen.symm, by omega, ?_⟩
  rw [h1, List.enum_map_fst, List.enum_length, List.length_map]

theorem invariant_structural_witness :
    emptyState.docstore.length = emptyState.index_to_docstore_id.length ∧
    emptyState.index_to_docstore_id.length = emptyState.vectors.length ∧
    emptyState.index_to_docstore_id.map Prod.fst =
      List.range emptyState.index_to_docstore_id.length :=
  invariant_structural_amended embedW emptyState VReachable.init

/-- C1 counterexample: two completed `add_documents` calls reusing the
caller-supplied id `"a"` leave the store with `|docstore| = 1` but
`|index_to_docstore_id| = 2 = index.ntotal`: the dict assignment
overwrites the docstore entry while the mapping and the index both
grow, so the claimed equality fails for this sequence of completed
operations. -/
theorem invariant_structural_cx :
    add_documents embedCX emptyState [docX] ["a"] (9 / 10) = (.ok [docX], stCX1) ∧
    add_documents embedCX stCX1 [docY] ["a"] (9 / 10) = (.ok [docY], stCX2) ∧
    stCX2.docstore.length = 1 ∧ stCX2.index_to_docstore_id.length = 2 ∧
    stCX2.vectors.length = 2 ∧
    ¬ (stCX2.docstore.length = stCX2.index_to_docstore_id.length) := by
  have hex : embedCX "x" = [1, 0] := rfl
  have hey : embedCX "y" = [0, 1] := rfl
  refine ⟨rfl, ?_, rfl, rfl, rfl, by decide⟩
  norm_num [add_documents, addLoop, similarity_search_with_score_by_vector, indexSearch,
    sqDist, simSearchLoop, dictLookup, dictInsert, stCX1, stCX2, hex, hey, docX, docY,
    cosineSimGT, dotQ, sqNormQ, List.insertionSort, List.orderedInsert, List.replicate,
    Except.bind]

end SemanticDocEngine
